import Mathlib

/-!
Shallow embedding of the population-table access layer and the option-flag
system of a tskit-style table library (`src/population_table.rs`,
`src/flags.rs`), together with proofs of the specified properties.

Machine integers are modelled as `Int` (for the C signed id type, i32 in the
source) and `Nat` (for the C unsigned size type, u64 in the source); no
arithmetic in the modelled code can overflow the original widths for the
properties proved here.
Fallible operations return `Except`; absent results are `Option`.
-/

namespace Tskit

/-- The raw flags integer type `RawFlags` (`tsk_flags_t`, u32 in the source). -/
abbrev RawFlags := Nat

/-- Modelled from the spec: the metadata codec error type of the external
metadata module (`crate::metadata::MetadataError`), kept opaque here. -/
structure MetadataError where
  message : String
deriving DecidableEq, Repr

/-- Modelled from the spec: the library error type `TskitError`; the variants
relevant to this layer are an error code from the storage collaborator and a
wrapped metadata codec error. -/
inductive TskitError where
  | ErrorCode (code : Int)
  | Metadata (err : MetadataError)
deriving DecidableEq, Repr

/-- Modelled from the spec: the external metadata codec contract
(`crate::metadata::MetadataRoundtrip`): a pluggable pair
`encode(value) -> bytes` / `decode(bytes) -> value`, each fallible. -/
structure MetadataRoundtrip (T : Type) where
  encode : T → Except MetadataError (List Nat)
  decode : List Nat → Except MetadataError T

/-- Shallow embedding of the native storage struct
`ll_bindings::tsk_population_table_t`: a row count plus the per-row raw
metadata byte ranges (the `metadata` / `metadata_offset` column pair is
modelled as one optional byte list per row; `none` means no byte range is
stored for that row). -/
structure tsk_population_table_t where
  num_rows : Nat
  metadata : List (Option (List Nat))
deriving DecidableEq, Repr

/-- Row of a `PopulationTable` (`PopulationTableRow` in the source): an id and
an optional copied metadata byte vector. -/
structure PopulationTableRow where
  id : Int
  metadata : Option (List Nat)
deriving DecidableEq, Repr

/-- An immutable view of a population table (`PopulationTable<'a>` in the
source): a borrowed reference to the native storage struct. -/
structure PopulationTable where
  table_ : tsk_population_table_t
deriving DecidableEq, Repr

/-- Embeds `PopulationTable::num_rows`: returns the storage struct's row count. -/
def PopulationTable.num_rows (self : PopulationTable) : Nat :=
  self.table_.num_rows

/-- Modelled from the spec: the macro `table_row_decode_metadata!` (defined in
a file not present here) reads the raw metadata byte range of row `pos`;
an absent byte range yields an absent metadata field, never an error. -/
def table_row_decode_metadata (table : tsk_population_table_t) (pos : Int) :
    Option (List Nat) :=
  if 0 ≤ pos then table.metadata.getD pos.toNat none else none

/-- Embeds `make_population_table_row`: converts `pos` to an unsigned index (the
source's unsigned try-from conversion fails exactly for negative `pos`), then
returns the row when the index is below `num_rows` and `None` otherwise. -/
def make_population_table_row (table : PopulationTable) (pos : Int) :
    Option PopulationTableRow :=
  if 0 ≤ pos then
    let index : Nat := pos.toNat
    if index < table.num_rows then
      some { id := pos, metadata := table_row_decode_metadata table.table_ pos }
    else
      none
  else
    none

/-- Modelled from the spec: the macro `metadata_to_vector!` (defined in a file
not present here) returns the stored metadata byte range of `row`: absent if
the row is out of range or no metadata is stored for it. -/
def metadata_to_vector (table : tsk_population_table_t) (row : Int) :
    Option (List Nat) :=
  if 0 ≤ row ∧ row.toNat < table.num_rows then table.metadata.getD row.toNat none
  else none

/-- Embeds the accessor `PopulationTable::metadata`: fetches the raw byte range (absent gives
`none`), then decodes it via the codec, wrapping a decode failure into
`TskitError` (the source's `decode_metadata_row!(T, buffer).map_err(...)`). -/
def PopulationTable.metadata {T : Type} (self : PopulationTable)
    (codec : MetadataRoundtrip T) (row : Int) :
    Option (Except TskitError T) :=
  (metadata_to_vector self.table_ row).map fun buffer =>
    (codec.decode buffer).mapError TskitError.Metadata

/-- Modelled from the spec: the macro `table_row_access!` (defined in a file
not present here) delegates row access to the row-construction function;
`PopulationTable::row` returns `Some(row)` for a valid id, `None` otherwise. -/
def PopulationTable.row (self : PopulationTable) (r : Int) :
    Option PopulationTableRow :=
  make_population_table_row self r

/-- Embeds `crate::table_iterator::TableIterator`: a table holder plus a signed
cursor position. -/
structure TableIterator (T : Type) where
  table : T
  pos : Int

/-- Modelled from the spec: `make_table_iterator` (defined in a file not
present here) yields a fresh cursor starting at position 0. -/
def make_table_iterator (table : PopulationTable) : TableIterator PopulationTable :=
  { table := table, pos := 0 }

/-- Embeds `Iterator::next` for the population-table iterators (the source's two
textually identical impls for the by-reference and by-value holders):
materialize the row at the cursor, then advance the cursor by one regardless
of whether a row was produced. -/
def TableIterator.next (self : TableIterator PopulationTable) :
    Option PopulationTableRow × TableIterator PopulationTable :=
  (make_population_table_row self.table self.pos, { self with pos := self.pos + 1 })

/-- The finite sequence an external consumer collects from the iterator:
repeatedly call `next`, stopping at the first absent item; `fuel` bounds the
number of calls (the Rust iterator protocol itself stops at the first
`None`). -/
def runIterator : Nat → TableIterator PopulationTable → List PopulationTableRow
  | 0, _ => []
  | fuel + 1, it =>
    match it.next with
    | (none, _) => []
    | (some r, it2) => r :: runIterator fuel it2

/-- The full row sequence of `PopulationTable::iter()`: collect the fresh
iterator; `num_rows + 1` calls are enough to reach the first absent item. -/
def PopulationTable.iterList (self : PopulationTable) : List PopulationTableRow :=
  runIterator (self.num_rows + 1) (make_table_iterator self)

/-- Modelled from the spec: the native `tsk_population_table_clear` of the
storage collaborator resets the row data; it returns error code 0 (success). -/
def tsk_population_table_clear (table : tsk_population_table_t) :
    Int × tsk_population_table_t :=
  (0, { num_rows := 0, metadata := [] })

/-- A standalone population table that owns its data
(`OwnedPopulationTable`, generated by `build_owned_table_type!`).  The owned
table is the only writer of its storage, so its metadata column always has
exactly one entry per row; that invariant is carried alongside the storage. -/
structure OwnedPopulationTable where
  table : tsk_population_table_t
  wf : table.metadata.length = table.num_rows

/-- Modelled from the spec: default construction yields an empty table with
zero rows and empty columns. -/
def OwnedPopulationTable.default : OwnedPopulationTable :=
  ⟨{ num_rows := 0, metadata := [] }, rfl⟩

/-- The borrowed read view over an owned table (the source derefs the owned
type to `PopulationTable` for `num_rows` / `row` / `metadata` / `iter`). -/
def OwnedPopulationTable.as_view (self : OwnedPopulationTable) : PopulationTable :=
  { table_ := self.table }

/-- Modelled from the spec: `OwnedPopulationTable::add_row` (generated by
`population_table_add_row!`, defined in a file not present here): inserts at
position `num_rows` with no metadata, increments `num_rows`, and returns the
new id; the storage collaborator's allocation is modelled as succeeding. -/
def OwnedPopulationTable.add_row (self : OwnedPopulationTable) :
    Except TskitError Int × OwnedPopulationTable :=
  (Except.ok (self.table.num_rows : Int),
   ⟨{ num_rows := self.table.num_rows + 1,
      metadata := self.table.metadata ++ [none] },
    by simp [self.wf]⟩)

/-- Modelled from the spec: `OwnedPopulationTable::add_row_with_metadata`
(generated by `population_table_add_row_with_metadata!`, defined in a file not
present here): encodes the metadata via the external codec before storing; an
encode failure surfaces as an error and the row is not inserted — the state
returned is the unchanged receiver. -/
def OwnedPopulationTable.add_row_with_metadata {T : Type}
    (self : OwnedPopulationTable) (codec : MetadataRoundtrip T) (m : T) :
    Except TskitError Int × OwnedPopulationTable :=
  match codec.encode m with
  | Except.error e => (Except.error (TskitError.Metadata e), self)
  | Except.ok bytes =>
    (Except.ok (self.table.num_rows : Int),
     ⟨{ num_rows := self.table.num_rows + 1,
        metadata := self.table.metadata ++ [some bytes] },
      by simp [self.wf]⟩)

/-- Embeds `TableClearOptions`: option-flag set for table clearing (its named bits
toggle the schema / top-level-metadata / provenance resets). -/
structure TableClearOptions where
  bits : RawFlags
deriving DecidableEq, Repr

/-- Modelled from the spec: `OwnedPopulationTable::clear(options)` (generated
by `build_owned_table_type!`, defined in a file not present here): calls the
native clear, which resets `num_rows` to 0; the option bits govern only the
schema/provenance resets, which are outside the modelled columns; the call
always succeeds. -/
def OwnedPopulationTable.clear (self : OwnedPopulationTable)
    (options : TableClearOptions) : Except TskitError Unit × OwnedPopulationTable :=
  (Except.ok (), ⟨(tsk_population_table_clear self.table).2, rfl⟩)

/-- Performs `n` successive `add_row` calls, collecting the returned ids in call order
together with the final table state; a failed call stops the run. -/
def addN : OwnedPopulationTable → Nat → List Int × OwnedPopulationTable
  | t, 0 => ([], t)
  | t, n + 1 =>
    match t.add_row with
    | (Except.ok i, t2) =>
      let rest := addN t2 n
      (i :: rest.1, rest.2)
    | (Except.error _, _) => ([], t)

/-- A concrete codec whose encode and decode always fail; exercises the
error paths of the metadata contract. -/
def failCodec : MetadataRoundtrip Nat where
  encode := fun _ => Except.error ⟨"encode failure"⟩
  decode := fun _ => Except.error ⟨"decode failure"⟩

/-- A concrete codec storing a number as a one-element byte list; it satisfies
the round-trip contract `decode (encode m) = ok m`. -/
def okCodec : MetadataRoundtrip Nat where
  encode := fun n => Except.ok [n]
  decode := fun bytes =>
    match bytes with
    | [n] => Except.ok n
    | _ => Except.error ⟨"bad buffer"⟩

/-- A concrete one-row borrowed view whose row stores metadata bytes. -/
def sampleTableWithMetadata : PopulationTable :=
  ⟨{ num_rows := 1, metadata := [some [9]] }⟩

/-- A concrete one-row borrowed view whose row stores no metadata. -/
def sampleTableNoMetadata : PopulationTable :=
  ⟨{ num_rows := 1, metadata := [none] }⟩

/-- A named constant declared inside a `bitflags!` block: its name and bit
value. -/
structure FlagBit where
  name : String
  value : RawFlags
deriving DecidableEq, Repr

/-- Modelled from the spec: the external C constant `TSK_NO_CHECK_INTEGRITY`,
a single nonzero flag bit of the storage collaborator. -/
def TSK_NO_CHECK_INTEGRITY : RawFlags := 1

/-- Modelled from the spec: the external C constant `TSK_NODE_IS_SAMPLE`, a
single nonzero flag bit of the storage collaborator. -/
def TSK_NODE_IS_SAMPLE : RawFlags := 1

/-- Embeds `TableSortOptions`: option-flag set for table sorting. -/
structure TableSortOptions where
  bits : RawFlags
deriving DecidableEq, Repr

/-- The named constants declared in the source's `bitflags!` block for
`TableSortOptions`: `NONE = 0` and `NO_CHECK_INTEGRITY`. -/
def TableSortOptions.namedBits : List FlagBit :=
  [⟨"NONE", 0⟩, ⟨"NO_CHECK_INTEGRITY", TSK_NO_CHECK_INTEGRITY⟩]

/-- Embeds `IndividualTableSortOptions`: option-flag set for individual-table
sorting. -/
structure IndividualTableSortOptions where
  bits : RawFlags
deriving DecidableEq, Repr

/-- The named constants declared in the source's `bitflags!` block for
`IndividualTableSortOptions`: only `NONE = 0`. -/
def IndividualTableSortOptions.namedBits : List FlagBit :=
  [⟨"NONE", 0⟩]

/-- Embeds `NodeFlags`: per-node flags; only `IS_SAMPLE` is named. -/
structure NodeFlags where
  bits : RawFlags
deriving DecidableEq, Repr

/-- Embeds `NodeFlags::IS_SAMPLE`. -/
def NodeFlags.IS_SAMPLE : NodeFlags := ⟨TSK_NODE_IS_SAMPLE⟩

/-- The `bitflags` membership test: all bits of `other` are set in `self`. -/
def NodeFlags.contains (self other : NodeFlags) : Bool :=
  self.bits &&& other.bits == other.bits

/-- Embeds `From<RawFlags> for NodeFlags`: `from_bits_unchecked(flags)`, which stores
the raw bits verbatim — no masking or validation. -/
def NodeFlags.fromRaw (flags : RawFlags) : NodeFlags :=
  { bits := flags }

/-- Embeds `NodeFlags::new_sample`. -/
def NodeFlags.new_sample : NodeFlags := NodeFlags.IS_SAMPLE

/-- Embeds `NodeFlags::is_valid`: the library does not enforce valid node flags;
always `true`. -/
def NodeFlags.is_valid (self : NodeFlags) : Bool := true

/-- Embeds `NodeFlags::is_sample`. -/
def NodeFlags.is_sample (self : NodeFlags) : Bool :=
  self.contains NodeFlags.IS_SAMPLE

/-- Embeds `IndividualFlags`: per-individual flags; no bit beyond `NONE` is named. -/
structure IndividualFlags where
  bits : RawFlags
deriving DecidableEq, Repr

/-- Embeds `From<RawFlags> for IndividualFlags`: `from_bits_unchecked(flags)`, which
stores the raw bits verbatim — no masking or validation. -/
def IndividualFlags.fromRaw (flags : RawFlags) : IndividualFlags :=
  { bits := flags }

/-- Embeds `IndividualFlags::is_valid`: the library does not enforce valid individual
flags; always `true`. -/
def IndividualFlags.is_valid (self : IndividualFlags) : Bool := true

/-! Helper lemmas on row construction. -/

/-- In-range positions yield the row with that id and the decoded metadata. -/
theorem make_row_in_range (t : PopulationTable) (pos : Int)
    (h0 : 0 ≤ pos) (h1 : pos < (t.num_rows : Int)) :
    make_population_table_row t pos =
      some { id := pos, metadata := table_row_decode_metadata t.table_ pos } := by
  have hidx : pos.toNat < t.num_rows := by omega
  simp only [make_population_table_row]
  rw [if_pos h0, if_pos hidx]

/-- Out-of-range positions yield no row. -/
theorem make_row_out_of_range (t : PopulationTable) (pos : Int)
    (h : pos < 0 ∨ (t.num_rows : Int) ≤ pos) :
    make_population_table_row t pos = none := by
  simp only [make_population_table_row]
  rcases h with h | h
  · have hneg : ¬ (0 ≤ pos) := by omega
    rw [if_neg hneg]
  · have h0 : 0 ≤ pos := by omega
    have hidx : ¬ (pos.toNat < t.num_rows) := by omega
    rw [if_pos h0, if_neg hidx]

/-- C1: for every population table and every id, `row(id)` delegates to
`make_population_table_row`, and `make_population_table_row(table, pos)` is
`None` exactly when `pos < 0` or `pos >= num_rows()` (hence `Some` otherwise);
both are pure functions of the table and the position, for all tables
including empty ones. -/
theorem row_is_make_row_and_none_iff_out_of_range
    (t : PopulationTable) (r : Int) :
    PopulationTable.row t r = make_population_table_row t r ∧
    (make_population_table_row t r = none ↔ r < 0 ∨ (t.num_rows : Int) ≤ r) := by
  refine ⟨rfl, ?_, fun h => make_row_out_of_range t r h⟩
  intro hnone
  by_contra hcon
  push_neg at hcon
  rw [make_row_in_range t r (by omega) (by omega)] at hnone
  exact Option.noConfusion hnone

/-- The row materialized at the in-range position `i`. -/
def rowAt (t : PopulationTable) (i : Nat) : PopulationTableRow :=
  { id := (i : Int), metadata := table_row_decode_metadata t.table_ (i : Int) }

/-- One step of the collected iterator: look at the first component of
`next`, stop on an absent row, otherwise emit the row and continue from the
advanced iterator state. -/
theorem runIterator_succ (fuel : Nat) (it : TableIterator PopulationTable) :
    runIterator (fuel + 1) it =
      match it.next.1 with
      | none => []
      | some r => r :: runIterator fuel it.next.2 := by
  rcases hx : it.next with ⟨o, it2⟩
  simp only [runIterator, hx]
  cases o <;> rfl

/-- Running the iterator from cursor `k` with `len` rows remaining collects
exactly the rows at positions `k, k+1, ..., num_rows - 1`. -/
theorem runIterator_from (t : PopulationTable) :
    ∀ (len k : Nat), k + len = t.num_rows →
      runIterator (len + 1) { table := t, pos := (k : Int) } =
        (List.range' k len).map (rowAt t) := by
  intro len
  induction len with
  | zero =>
    intro k hk
    rw [runIterator_succ]
    simp only [TableIterator.next]
    rw [make_row_out_of_range t (k : Int) (Or.inr (by omega))]
    rfl
  | succ n ih =>
    intro k hk
    rw [runIterator_succ]
    simp only [TableIterator.next]
    rw [make_row_in_range t (k : Int) (by omega) (by omega)]
    have hcast : ((k : Int)) + 1 = (((k + 1 : Nat)) : Int) := by push_cast; ring
    simp only [hcast]
    rw [ih (k + 1) (by omega), List.range'_succ, List.map_cons]
    rfl

/-- The collected iterator output is the row at each position in order. -/
theorem iterList_eq_map_range (t : PopulationTable) :
    t.iterList = (List.range t.num_rows).map (rowAt t) := by
  have h := runIterator_from t t.num_rows 0 (by omega)
  simpa [PopulationTable.iterList, make_table_iterator, List.range_eq_range'] using h

/-- C2: for every population table, the sequence produced by `iter()` contains
exactly `num_rows()` items whose ids are `0, 1, ..., num_rows - 1` in strictly
ascending order; the i-th item equals `row(i)` (and positions at or past
`num_rows` yield nothing); each call to `next` materializes the row at the
current cursor position and advances the cursor by one regardless of whether a
row was produced; and row construction at cursor position `num_rows` is
absent, so the sequence terminates there and never earlier. -/
theorem iter_yields_every_row_in_order (t : PopulationTable) :
    t.iterList.length = t.num_rows ∧
    (t.iterList.map fun r => r.id) =
      ((List.range t.num_rows).map fun i : Nat => (i : Int)) ∧
    (∀ i : Nat, t.iterList[i]? = if i < t.num_rows then t.row (i : Int) else none) ∧
    (∀ it : TableIterator PopulationTable,
        it.next.2.pos = it.pos + 1 ∧
        it.next.1 = make_population_table_row it.table it.pos) ∧
    make_population_table_row t (t.num_rows : Int) = none := by
  refine ⟨?_, ?_, ?_, fun it => ⟨rfl, rfl⟩, ?_⟩
  · rw [iterList_eq_map_range]
    simp
  · rw [iterList_eq_map_range, List.map_map]
    rfl
  · intro i
    rw [iterList_eq_map_range, List.getElem?_map]
    by_cases hi : i < t.num_rows
    · rw [List.getElem?_range hi, if_pos hi, PopulationTable.row,
        make_row_in_range t (i : Int) (by omega) (by omega)]
      rfl
    · rw [List.getElem?_eq_none (by simpa using Nat.le_of_not_lt hi), if_neg hi]
      rfl
  · exact make_row_out_of_range t (t.num_rows : Int) (Or.inr (by omega))

/-- C8 counterexample: the claim asserts that the individual-table sort
options flag set also provides a named bit toggling skipping integrity
validation; in fact its `bitflags!` block declares only `NONE = 0`, so no
named constant with a nonzero bit exists. -/
theorem individual_sort_options_have_no_nonzero_bit :
    (IndividualTableSortOptions.namedBits.any fun b => b.value != 0) = false := by
  decide

/-- C8 (amended): only the table sort options flag set provides a named bit,
`NO_CHECK_INTEGRITY`, that toggles skipping integrity validation during sort;
the individual-table sort options flag set names only `NONE = 0` and provides
no such bit. -/
theorem sort_options_integrity_bit :
    (TableSortOptions.namedBits.any
        fun b => b.name == "NO_CHECK_INTEGRITY" && b.value != 0) = true ∧
    (IndividualTableSortOptions.namedBits.all fun b => b.value == 0) = true := by
  constructor
  · decide
  · decide

/-- C9: for every raw bit pattern, including patterns with bits set outside
the named flags, `NodeFlags::is_valid()` and `IndividualFlags::is_valid()`
return `true` unconditionally. -/
theorem node_and_individual_flags_always_valid (f : RawFlags) :
    (NodeFlags.fromRaw f).is_valid = true ∧
    (IndividualFlags.fromRaw f).is_valid = true :=
  ⟨rfl, rfl⟩

/-- C10: for every raw flag value, converting it into `NodeFlags` or
`IndividualFlags` via the `From<RawFlags>` impls and reading back the
underlying bits yields exactly the input — the conversion performs no
masking, validation, or alteration of any bit. -/
theorem from_raw_flags_preserves_bits (f : RawFlags) :
    (NodeFlags.fromRaw f).bits = f ∧ (IndividualFlags.fromRaw f).bits = f :=
  ⟨rfl, rfl⟩

/-- Reading the column entry just appended at position `length` returns it. -/
theorem getD_append_length {α : Type} (l : List α) (a d : α) :
    (l ++ [a]).getD l.length d = a := by
  simp [List.getD]

/-- The stored metadata byte range of the row just inserted at the old
`num_rows` is exactly the appended entry. -/
theorem metadata_to_vector_pushed (t : OwnedPopulationTable)
    (entry : Option (List Nat)) :
    metadata_to_vector
      { num_rows := t.table.num_rows + 1, metadata := t.table.metadata ++ [entry] }
      (t.table.num_rows : Int) = entry := by
  have hcond : 0 ≤ ((t.table.num_rows : Int)) ∧
      ((t.table.num_rows : Int)).toNat < t.table.num_rows + 1 := by
    constructor <;> omega
  simp only [metadata_to_vector]
  rw [if_pos hcond, Int.toNat_natCast]
  conv in t.table.num_rows => rw [← t.wf]
  exact getD_append_length t.table.metadata entry none

/-- The decoded metadata field of the row just inserted at the old `num_rows`
is exactly the appended entry. -/
theorem table_row_decode_metadata_pushed (t : OwnedPopulationTable)
    (entry : Option (List Nat)) :
    table_row_decode_metadata
      { num_rows := t.table.num_rows + 1, metadata := t.table.metadata ++ [entry] }
      (t.table.num_rows : Int) = entry := by
  simp only [table_row_decode_metadata]
  rw [if_pos (by omega), Int.toNat_natCast]
  conv in t.table.num_rows => rw [← t.wf]
  exact getD_append_length t.table.metadata entry none

/-- Running `n` calls of `add_row` from any table state yields the ids
`num_rows, num_rows + 1, ...` and grows `num_rows` by `n`. -/
theorem addN_from (n : Nat) :
    ∀ t : OwnedPopulationTable,
      (addN t n).1 =
        ((List.range' t.table.num_rows n).map fun i : Nat => (i : Int)) ∧
      (addN t n).2.table.num_rows = t.table.num_rows + n := by
  induction n with
  | zero => exact fun t => ⟨rfl, rfl⟩
  | succ n ih =>
    intro t
    simp only [addN, OwnedPopulationTable.add_row]
    constructor
    · rw [List.range'_succ, List.map_cons, (ih _).1]
    · rw [(ih _).2]
      show t.table.num_rows + 1 + n = t.table.num_rows + (n + 1)
      omega

/-- C3: performing `n` successful `add_row` calls on the empty default table
yields the ids `0, 1, ..., n-1` in call order and leaves `num_rows() = n`;
moreover every single `add_row` returns the id `num_rows`, increments
`num_rows` by one, and inserts a metadata-free row readable at that id. -/
theorem add_row_yields_sequential_ids (n : Nat) :
    (addN OwnedPopulationTable.default n).1 =
      ((List.range n).map fun i : Nat => (i : Int)) ∧
    (addN OwnedPopulationTable.default n).2.table.num_rows = n ∧
    (∀ t : OwnedPopulationTable,
        t.add_row.1 = Except.ok (t.table.num_rows : Int) ∧
        t.add_row.2.table.num_rows = t.table.num_rows + 1 ∧
        t.add_row.2.as_view.row (t.table.num_rows : Int) =
          some { id := (t.table.num_rows : Int), metadata := none }) := by
  refine ⟨?_, ?_, fun t => ⟨rfl, rfl, ?_⟩⟩
  · rw [(addN_from n OwnedPopulationTable.default).1, List.range_eq_range']
    rfl
  · rw [(addN_from n OwnedPopulationTable.default).2]
    show 0 + n = n
    omega
  · rw [PopulationTable.row,
      make_row_in_range t.add_row.2.as_view (t.table.num_rows : Int)
        (by omega) (by simp [OwnedPopulationTable.add_row,
          OwnedPopulationTable.as_view, PopulationTable.num_rows])]
    simp only [OwnedPopulationTable.add_row, OwnedPopulationTable.as_view]
    rw [table_row_decode_metadata_pushed t none]

/-- C4: if `add_row_with_metadata` fails because the metadata fails to encode,
the error is surfaced to the caller and the table state, including `num_rows`
and all existing rows, is unchanged (atomic failure). -/
theorem add_row_with_metadata_encode_failure_atomic {T : Type}
    (t : OwnedPopulationTable) (codec : MetadataRoundtrip T) (m : T)
    (e : MetadataError) (henc : codec.encode m = Except.error e) :
    (t.add_row_with_metadata codec m).1 = Except.error (TskitError.Metadata e) ∧
    (t.add_row_with_metadata codec m).2 = t := by
  have hstep : t.add_row_with_metadata codec m =
      (Except.error (TskitError.Metadata e), t) := by
    simp only [OwnedPopulationTable.add_row_with_metadata, henc]
  rw [hstep]
  exact ⟨rfl, rfl⟩

/-- C4 witness: a failing encode on the empty table surfaces the wrapped
error and leaves the table untouched. -/
theorem add_row_with_metadata_encode_failure_atomic_witness :
    (OwnedPopulationTable.default.add_row_with_metadata failCodec 0).1 =
      Except.error (TskitError.Metadata ⟨"encode failure"⟩) ∧
    (OwnedPopulationTable.default.add_row_with_metadata failCodec 0).2 =
      OwnedPopulationTable.default :=
  add_row_with_metadata_encode_failure_atomic OwnedPopulationTable.default
    failCodec 0 ⟨"encode failure"⟩ rfl

/-- C5: for any codec satisfying its own round-trip contract, a successful
`add_row_with_metadata m` returning id followed by `metadata(id)` returns
`Some(Ok(m))`. -/
theorem add_row_metadata_roundtrip {T : Type}
    (t : OwnedPopulationTable) (codec : MetadataRoundtrip T) (m : T)
    (hrt : ∀ (x : T) (bytes : List Nat), codec.encode x = Except.ok bytes →
        codec.decode bytes = Except.ok x)
    (i : Int) (t2 : OwnedPopulationTable)
    (hadd : t.add_row_with_metadata codec m = (Except.ok i, t2)) :
    t2.as_view.metadata codec i = some (Except.ok m) := by
  cases henc : codec.encode m with
  | error e =>
    simp only [OwnedPopulationTable.add_row_with_metadata, henc,
      Prod.mk.injEq] at hadd
    exact absurd hadd.1 (by simp)
  | ok bytes =>
    simp only [OwnedPopulationTable.add_row_with_metadata, henc,
      Prod.mk.injEq] at hadd
    obtain ⟨h1, h2⟩ := hadd
    obtain rfl : i = (t.table.num_rows : Int) := by
      cases h1
      rfl
    subst h2
    have hdec := hrt m bytes henc
    simp only [OwnedPopulationTable.as_view, PopulationTable.metadata]
    rw [metadata_to_vector_pushed t (some bytes)]
    show some ((codec.decode bytes).mapError TskitError.Metadata) =
      some (Except.ok m)
    rw [hdec]
    rfl

/-- C5 witness: with the concrete round-tripping codec, adding metadata `7`
to the empty table and reading it back at the returned id `0` yields
`Some(Ok(7))`. -/
theorem add_row_metadata_roundtrip_witness :
    (OwnedPopulationTable.default.add_row_with_metadata okCodec 7).2.as_view.metadata
      okCodec 0 = some (Except.ok 7) := by
  refine add_row_metadata_roundtrip OwnedPopulationTable.default okCodec 7 ?_ 0 _ rfl
  intro x bytes h
  have hb : bytes = [x] := by
    simpa [okCodec] using h.symm
  subst hb
  rfl

/-- C6: `metadata(id)` is absent (not an error) when the id is out of range of
`0..num_rows` or when no metadata byte range is stored for the row; when bytes
are present but fail to decode, the decode error is returned as
`Some(Err(...))` wrapping the codec failure. -/
theorem metadata_access_error_taxonomy {T : Type} (t : PopulationTable)
    (codec : MetadataRoundtrip T) (r : Int) :
    (¬ (0 ≤ r ∧ r < (t.num_rows : Int)) → t.metadata codec r = none) ∧
    (metadata_to_vector t.table_ r = none → t.metadata codec r = none) ∧
    (∀ (buffer : List Nat) (e : MetadataError),
        metadata_to_vector t.table_ r = some buffer →
        codec.decode buffer = Except.error e →
        t.metadata codec r = some (Except.error (TskitError.Metadata e))) := by
  refine ⟨?_, ?_, ?_⟩
  · intro h
    simp only [PopulationTable.num_rows] at h
    have hcond : ¬ (0 ≤ r ∧ r.toNat < t.table_.num_rows) := by omega
    simp only [PopulationTable.metadata, metadata_to_vector]
    rw [if_neg hcond]
    rfl
  · intro h
    simp only [PopulationTable.metadata]
    rw [h]
    rfl
  · intro buffer e hbuf hdec
    simp only [PopulationTable.metadata]
    rw [hbuf]
    show some ((codec.decode buffer).mapError TskitError.Metadata) =
      some (Except.error (TskitError.Metadata e))
    rw [hdec]
    rfl

/-- C6 witness: on concrete one-row tables, a negative id is absent, a stored
row without metadata is absent, and stored bytes that fail to decode surface
the wrapped decode error. -/
theorem metadata_access_error_taxonomy_witness :
    sampleTableWithMetadata.metadata failCodec (-1) = none ∧
    sampleTableNoMetadata.metadata failCodec 0 = none ∧
    sampleTableWithMetadata.metadata failCodec 0 =
      some (Except.error (TskitError.Metadata ⟨"decode failure"⟩)) :=
  ⟨(metadata_access_error_taxonomy sampleTableWithMetadata failCodec (-1)).1
      (by decide),
   (metadata_access_error_taxonomy sampleTableNoMetadata failCodec 0).2.1 rfl,
   (metadata_access_error_taxonomy sampleTableWithMetadata failCodec 0).2.2
      [9] ⟨"decode failure"⟩ rfl rfl⟩

/-- C7: `clear(options)` always succeeds for every option bit pattern, and
immediately afterwards `num_rows() = 0`, `iter()` yields no rows, and
`row(0)` is absent. -/
theorem clear_empties_table (t : OwnedPopulationTable)
    (options : TableClearOptions) :
    (t.clear options).1 = Except.ok () ∧
    (t.clear options).2.table.num_rows = 0 ∧
    (t.clear options).2.as_view.iterList = [] ∧
    (t.clear options).2.as_view.row 0 = none :=
  ⟨rfl, rfl, rfl, rfl⟩

end Tskit
